import Mathlib

/-!
Shallow embedding of the geodb services package (`services/services.go`) and
its streaming hub (`stream/stream.go`).

The underlying badger KV engine is modelled as a key-sorted association list
of entries; keys are byte sequences modelled as lists of characters, compared
lexicographically exactly as `bytes.Compare` / `bytes.HasPrefix` do.
Protobuf serialization is modelled as the identity (the source discards the
`proto.Marshal` error and the stored bytes decode back to the object).
The great-circle distance of the external geo library is an abstract
parameter `dist : Point → Point → Rat`; engine-side write failures
(`txn.SetEntry` errors, `txn.Commit` errors/conflicts) are abstract
per-key failure injections.
-/

set_option autoImplicit false
set_option synthInstance.maxHeartbeats 1000000
set_option maxHeartbeats 1000000

namespace GeoDB

/-- Keys are byte strings; modelled as lists of characters. -/
abbrev Key := List Char

/-- Lexicographic strict order on keys, as `bytes.Compare _ _ < 0`. -/
def keyLt : Key → Key → Bool
  | _, [] => false
  | [], _ :: _ => true
  | a :: as, b :: bs => if a < b then true else if a = b then keyLt as bs else false

/-- Byte-string prefix test, as `bytes.HasPrefix`: `keyPfx p k` holds when `p` is a prefix of `k`. -/
def keyPfx : Key → Key → Bool
  | [], _ => true
  | _ :: _, [] => false
  | a :: as, b :: bs => if a = b then keyPfx as bs else false

/-- A geographic point (`api.Point`): latitude and longitude. -/
structure Point where
  lat : Rat
  lon : Rat
deriving DecidableEq

/-- A stored spatial object (`api.Object`): key, optional point, radius,
timestamps, and opaque caller payload. `point` is optional because the
protobuf field is a nullable pointer. -/
structure Object where
  key : Key
  point : Option Point
  radius : Int
  updatedUnix : Int
  expiresUnix : Int
  payload : String
deriving DecidableEq

/-- A proximity event (`api.Event`). -/
structure Event where
  triggerObject : Object
  object : Object
  distance : Rat
  timestampUnix : Int
deriving DecidableEq

/-- `ObjectMeta`: the one-byte user-metadata tag marking object records. -/
def ObjectMeta : Nat := 1

/-- `EventMeta`: the one-byte tag reserved for event records (declared in the
source, never written by it). -/
def EventMeta : Nat := 2

/-- A KV entry as written by badger: user-metadata tag, the (decoded) stored
value, and the expiration stamp. -/
structure Entry where
  meta : Nat
  value : Object
  expiresAt : Int
deriving DecidableEq

/-- The badger store: entries in key-sorted iteration order. -/
abbrev Store := List (Key × Entry)

/-- Sortedness of the store, an invariant badger maintains: keys strictly
increase in iteration order. -/
def StoreSorted (st : Store) : Prop :=
  st.Pairwise (fun a b => keyLt a.1 b.1 = true)

/-- Point lookup, as `txn.Get`. -/
def lookupStore : Store → Key → Option Entry
  | [], _ => none
  | (k', e) :: rest, k => if k = k' then some e else lookupStore rest k

/-- Insert (or replace) a binding, keeping the store key-sorted, as a committed
`txn.SetEntry` does. -/
def insertStore : Store → Key → Entry → Store
  | [], k, e => [(k, e)]
  | (k', e') :: rest, k, e =>
    if keyLt k k' then (k, e) :: (k', e') :: rest
    else if k = k' then (k, e) :: rest
    else (k', e') :: insertStore rest k e

/-- The entry staged for a (stamped) object: object tag, value, and the
expiration copied from `expiresUnix`. -/
def objEntry (val : Object) : Entry :=
  { meta := ObjectMeta, value := val, expiresAt := val.expiresUnix }

/-- Stamping performed at the head of each `Set` goroutine: `val.Key = key`,
and `val.UpdatedUnix` defaulted to the current time when zero. -/
def stampObject (now : Int) (k : Key) (v : Object) : Object :=
  { v with key := k, updatedUnix := if v.updatedUnix = 0 then now else v.updatedUnix }

/-- The event constructed at a qualifying candidate of the proximity scan. -/
def mkEvent (val obj : Object) (d : Rat) : Event :=
  { triggerObject := val, object := obj, distance := d, timestampUnix := val.updatedUnix }

/-- The proximity scan inside `Set`: iterate every entry visible in the
transaction; skip non-object tags; skip candidates with no coordinate;
publish an event when `dist ≤ float64(val.Radius + obj.Radius)`. Decode is
modelled as the identity (scan-level decode failures are logged and skipped
in the source; the model stores decoded objects). -/
def proximityScan (dist : Point → Point → Rat) (val : Object) (p1 : Point) : Store → List Event
  | [] => []
  | (_, e) :: rest =>
    let tail := proximityScan dist val p1 rest
    if e.meta = ObjectMeta then
      match e.value.point with
      | none => tail
      | some p2 =>
        if dist p1 p2 ≤ ((val.radius + e.value.radius : Int) : Rat) then
          mkEvent val e.value (dist p1 p2) :: tail
        else tail
    else tail

/-- Result of one `Set` goroutine: the store after the transaction, the
objects handed to `Hub.PublishObject`, and the events handed to
`Hub.PublishEvent` (publishes happen before commit, so they survive a failed
commit). -/
structure KeyResult where
  store : Store
  publishedObjects : List Object
  publishedEvents : List Event
deriving DecidableEq

/-- One per-key unit of work of `Set`. Mirrors the goroutine body:
stamp; serialize; `SetEntry` (an engine failure abandons the key: early
return before publish and scan); publish the object; build `point1` from
`val.Point` — a nil point is dereferenced here, so the goroutine panics
(modelled as `none`); run the proximity scan on the transaction view, which
includes the staged write; commit (a failure is logged and the staged write
is discarded, but the publishes already happened). -/
def setKey (dist : Point → Point → Rat) (setEntryFails commitFails : Key → Bool)
    (now : Int) (st : Store) (k : Key) (v : Object) : Option KeyResult :=
  let val := stampObject now k v
  if setEntryFails k then
    some { store := st, publishedObjects := [], publishedEvents := [] }
  else
    match val.point with
    | none => none
    | some p1 =>
      let view := insertStore st k (objEntry val)
      let events := proximityScan dist val p1 view
      if commitFails k then
        some { store := st, publishedObjects := [val], publishedEvents := events }
      else
        some { store := view, publishedObjects := [val], publishedEvents := events }

/-- The batch of a `Set` call, processed per key. The source runs one
goroutine per key with an independent transaction and joins on a WaitGroup;
the model serializes them in batch order (one admissible schedule; keys of
the request map are distinct). A panic in any unit crashes the call
(`none`). -/
def SetBatch (dist : Point → Point → Rat) (setEntryFails commitFails : Key → Bool)
    (now : Int) : Store → List (Key × Object) → Option (Store × List Object × List Event)
  | st, [] => some (st, [], [])
  | st, (k, v) :: rest =>
    match setKey dist setEntryFails commitFails now st k v with
    | none => none
    | some r =>
      match SetBatch dist setEntryFails commitFails now r.store rest with
      | none => none
      | some (st', pubs, evs) =>
        some (st', r.publishedObjects ++ pubs, r.publishedEvents ++ evs)

/-- The caller-facing response of `Set` (`api.SetResponse`): an empty message
with no fields, hence no per-key status. -/
inductive SetResponse where
  | mk
deriving DecidableEq

/-- `Set`: fire-and-forget batch upsert. Always answers the empty response
and a nil error when no unit panics. -/
def Set (dist : Point → Point → Rat) (setEntryFails commitFails : Key → Bool)
    (now : Int) (st : Store) (batch : List (Key × Object)) :
    Option (Store × List Object × List Event × SetResponse) :=
  match SetBatch dist setEntryFails commitFails now st batch with
  | none => none
  | some (st', pubs, evs) => some (st', pubs, evs, SetResponse.mk)

/-- Projection: the store left by a completed `Set` call. -/
def setStoreOf : Option (Store × List Object × List Event × SetResponse) → Store
  | none => []
  | some r => r.1

/-- Projection: the response of a completed `Set` call. -/
def respOf : Option (Store × List Object × List Event × SetResponse) → Option SetResponse
  | none => none
  | some r => r.2.2.2

/-- Projection: the events published by one `Set` unit of work. -/
def eventsOf : Option KeyResult → List Event
  | none => []
  | some r => r.publishedEvents

/-- `Get`: read-only transaction; a lookup failure (missing key) aborts the
whole call; entries whose tag is not the object tag are skipped. -/
def Get : Store → List Key → Except String (List (Key × Object))
  | _, [] => Except.ok []
  | st, k :: ks =>
    match lookupStore st k with
    | none => Except.error "Key not found"
    | some e =>
      match Get st ks with
      | Except.error s => Except.error s
      | Except.ok rest =>
        Except.ok (if e.meta = ObjectMeta then (k, e.value) :: rest else rest)

/-- `Keys`: full scan returning the keys of all object-tagged entries in
iteration order. -/
def Keys (st : Store) : List Key :=
  (st.filter (fun kv => kv.2.meta == ObjectMeta)).map (fun kv => kv.1)

/-- `Seek`: `iter.Seek(prefix)` positions at the first key not below the
prefix (drop the keys strictly below it), then the loop runs while
`iter.ValidForPrefix(prefix)` (take while the prefix matches); within the
range, non-object tags are skipped and object values collected. -/
def Seek (st : Store) (p : Key) : List (Key × Object) :=
  ((st.dropWhile (fun kv => keyLt kv.1 p)).takeWhile (fun kv => keyPfx p kv.1)).filterMap
    (fun kv => if kv.2.meta = ObjectMeta then some (kv.1, kv.2.value) else none)

/-- `GetRegex`: full scan; skip non-object tags; run `regexp.MatchString`
(abstracted as `ms`: it may fail, e.g. on a pattern that does not compile)
against each object key, aborting the call on a match error; collect
matches. -/
def GetRegex (ms : String → Key → Except String Bool) (pat : String) :
    Store → Except String (List (Key × Object))
  | [] => Except.ok []
  | (k, e) :: rest =>
    if e.meta = ObjectMeta then
      match ms pat k with
      | Except.error s => Except.error s
      | Except.ok b =>
        match GetRegex ms pat rest with
        | Except.error s => Except.error s
        | Except.ok objs => Except.ok (if b then (k, e.value) :: objs else objs)
    else GetRegex ms pat rest

/-- The transaction built by `Delete`: `txn.Delete` stages the removal of
each supplied key (no tag check) in the transaction's pending view, and
`committed` records whether `txn.Commit` was invoked — in the source it
never is; the deferred `txn.Discard` drops the staged deletes. -/
structure DeleteTxnState where
  view : Store
  committed : Bool
deriving DecidableEq

/-- The pending view of `Delete`'s transaction: every supplied key staged as
removed, regardless of its metadata tag. -/
def deleteKeysView (st : Store) (keys : List Key) : Store :=
  keys.foldl (fun v k => v.filter (fun kv => !(kv.1 == k))) st

/-- `Delete`'s transaction as the source builds it: deletes staged, commit
never called. -/
def DeleteTxn (st : Store) (keys : List Key) : DeleteTxnState :=
  { view := deleteKeysView st keys, committed := false }

/-- `Delete`: the store that results from the call — the staged view when the
transaction was committed, the unchanged store when it was discarded. -/
def Delete (st : Store) (keys : List Key) : Store :=
  let t := DeleteTxn st keys
  if t.committed then t.view else st

/-- The broadcast Hub's client tables (`stream.Hub`): per-client delivery
channels for objects and for events, modelled by channel identifiers drawn
from a fresh counter. A Go map assignment replaces any existing binding. -/
structure Hub where
  objectClients : List (String × Nat)
  eventClients : List (String × Nat)
  nextChan : Nat
deriving DecidableEq

/-- A fresh Hub (`stream.NewHub`): both client maps empty. -/
def newHub : Hub :=
  { objectClients := [], eventClients := [], nextChan := 0 }

/-- Go map indexing on a client table. -/
def lookupClient : List (String × Nat) → String → Option Nat
  | [], _ => none
  | (id', ch) :: rest, id => if id = id' then some ch else lookupClient rest id

/-- Go map assignment: bind `id` to `ch`, replacing any previous binding. -/
def bindClient (l : List (String × Nat)) (id : String) (ch : Nat) : List (String × Nat) :=
  (id, ch) :: l.filter (fun x => !(x.1 == id))

/-- `Hub.AddObjectStreamClient`: under the lock, use the caller's ID (or a
generated UUID when it is empty), bind a fresh channel in the OBJECT client
map, and return the effective ID. -/
def AddObjectStreamClient (uuid : String) (h : Hub) (clientID : String) : Hub × String :=
  let id := if clientID = "" then uuid else clientID
  ({ h with objectClients := bindClient h.objectClients id h.nextChan,
            nextChan := h.nextChan + 1 }, id)

/-- `Hub.AddEventStreamClient`: as above, but binding in the EVENT client
map. -/
def AddEventStreamClient (uuid : String) (h : Hub) (clientID : String) : Hub × String :=
  let id := if clientID = "" then uuid else clientID
  ({ h with eventClients := bindClient h.eventClients id h.nextChan,
            nextChan := h.nextChan + 1 }, id)

/-- `Hub.GetClientObjectStream`: when `id` is in the object-client map,
return its object channel (a nil channel is `none`). -/
def GetClientObjectStream (h : Hub) (id : String) : Option Nat :=
  if (lookupClient h.objectClients id).isSome then lookupClient h.objectClients id else none

/-- `Hub.GetClientEventStream`, exactly as the source reads: the membership
test consults the OBJECT-client map (`h.objectClients[id]`), and on success
the function indexes the event-client map, whose zero value for an absent
key is a nil channel (`none`). -/
def GetClientEventStream (h : Hub) (id : String) : Option Nat :=
  if (lookupClient h.objectClients id).isSome then lookupClient h.eventClients id else none

/-- The registration step performed by the `StreamEvents` RPC handler: the
source calls `p.hub.AddObjectStreamClient(r.ClientId)` — the OBJECT
registration — for an event-stream client. -/
def streamEventsRegister (uuid : String) (h : Hub) (clientID : String) : Hub × String :=
  AddObjectStreamClient uuid h clientID

/-- What a streaming loop observes in one `select` round: a message delivered
on its channel, or the call context's Done signal. -/
inductive StreamMsg (α : Type) where
  | msg (a : α)
  | cancelled
deriving DecidableEq

/-- The effect of one loop iteration: keep looping (recording whether the
client was deregistered and what was sent to the caller), or return from the
handler with an error. -/
inductive LoopStep (α : Type) where
  | continueLoop (deregistered : Bool) (sent : List α)
  | returnErr (msg : String)
deriving DecidableEq

/-- One iteration of the `Stream` handler's `for`/`select` loop. On a
delivered object: when a regex was supplied, a `MatchString` error returns
from the handler; a match (or no regex) sends the object, logging any send
error. On `ctx.Done`: `RemoveObjectStreamClient` runs, then `break` — which
in Go terminates only the `select` statement, not the enclosing `for`, so
the loop continues. -/
def streamStep (ms : String → Key → Except String Bool) (regex : String) :
    StreamMsg Object → LoopStep Object
  | StreamMsg.cancelled => LoopStep.continueLoop true []
  | StreamMsg.msg o =>
    if regex = "" then LoopStep.continueLoop false [o]
    else
      match ms regex o.key with
      | Except.error e => LoopStep.returnErr e
      | Except.ok true => LoopStep.continueLoop false [o]
      | Except.ok false => LoopStep.continueLoop false []

/-- One iteration of the `StreamEvents` handler's loop; the regex is matched
against the trigger object's key. The `ctx.Done` branch likewise ends with a
`break` that exits only the `select`. -/
def streamEventsStep (ms : String → Key → Except String Bool) (regex : String) :
    StreamMsg Event → LoopStep Event
  | StreamMsg.cancelled => LoopStep.continueLoop true []
  | StreamMsg.msg e =>
    if regex = "" then LoopStep.continueLoop false [e]
    else
      match ms regex e.triggerObject.key with
      | Except.error er => LoopStep.returnErr er
      | Except.ok true => LoopStep.continueLoop false [e]
      | Except.ok false => LoopStep.continueLoop false []

/-- Run the `Stream` loop over a sequence of observations: `some err` when an
iteration returns from the handler, `none` when the loop is still running
after consuming them all. -/
def runStreamLoop (ms : String → Key → Except String Bool) (regex : String) :
    List (StreamMsg Object) → Option String
  | [] => none
  | m :: rest =>
    match streamStep ms regex m with
    | LoopStep.returnErr e => some e
    | LoopStep.continueLoop _ _ => runStreamLoop ms regex rest

/-- Run the `StreamEvents` loop over a sequence of observations. -/
def runStreamEventsLoop (ms : String → Key → Except String Bool) (regex : String) :
    List (StreamMsg Event) → Option String
  | [] => none
  | m :: rest =>
    match streamEventsStep ms regex m with
    | LoopStep.returnErr e => some e
    | LoopStep.continueLoop _ _ => runStreamEventsLoop ms regex rest

theorem keyLt_nil_right (k : Key) : keyLt k [] = false := by
  cases k <;> rfl

theorem keyPfx_nil_left (k : Key) : keyPfx [] k = true := rfl

/-- A key extending `p` is never strictly below `p`. -/
theorem keyPfx_lt : ∀ (p k : Key), keyPfx p k = true → keyLt k p = false
  | [], k, _ => keyLt_nil_right k
  | _ :: _, [], h => by simp [keyPfx] at h
  | a :: as, b :: bs, h => by
    simp only [keyPfx] at h
    by_cases hab : a = b
    · subst hab
      rw [if_pos rfl] at h
      simp only [keyLt, lt_irrefl, if_neg (lt_irrefl a), if_pos rfl]
      exact keyPfx_lt as bs h
    · rw [if_neg hab] at h
      simp at h

/-- Transitivity of the byte-string order. -/
theorem keyLt_trans : ∀ (a b c : Key),
    keyLt a b = true → keyLt b c = true → keyLt a c = true
  | _, [], _, h1, _ => by rw [keyLt_nil_right] at h1; simp at h1
  | _, _ :: _, [], _, h2 => by rw [keyLt_nil_right] at h2; simp at h2
  | [], _ :: _, _ :: _, _, _ => rfl
  | a :: as, b :: bs, c :: cs, h1, h2 => by
    simp only [keyLt] at h1 h2 ⊢
    by_cases hab : a < b
    · by_cases hbc : b < c
      · rw [if_pos (lt_trans hab hbc)]
      · rw [if_neg hbc] at h2
        by_cases hbc' : b = c
        · subst hbc'
          rw [if_pos hab]
        · rw [if_neg hbc'] at h2
          simp at h2
    · rw [if_neg hab] at h1
      by_cases hab' : a = b
      · rw [if_pos hab'] at h1
        subst hab'
        by_cases hac : a < c
        · rw [if_pos hac]
        · rw [if_neg hac] at h2 ⊢
          by_cases hac' : a = c
          · rw [if_pos hac'] at h2 ⊢
            exact keyLt_trans as bs cs h1 h2
          · rw [if_neg hac'] at h2
            simp at h2
      · rw [if_neg hab'] at h1
        simp at h1

/-- Keys extending a prefix `p` are contiguous in sorted order: if `k` is not
below `p` and a key `k'` above `k` extends `p`, then `k` extends `p` as
well. -/
theorem keyPfx_between : ∀ (p k k' : Key),
    keyLt k p = false → keyLt k k' = true → keyPfx p k' = true → keyPfx p k = true
  | [], _, _, _, _, _ => rfl
  | _ :: _, [], _, h1, _, _ => by simp [keyLt] at h1
  | _ :: _, _ :: _, [], _, h2, _ => by rw [keyLt_nil_right] at h2; simp at h2
  | a :: as, b :: bs, b' :: bs', h1, h2, h3 => by
    simp only [keyPfx] at h3 ⊢
    by_cases hab' : a = b'
    · rw [if_pos hab'] at h3
      subst hab'
      simp only [keyLt] at h1 h2
      by_cases hba : b < a
      · rw [if_pos hba] at h1
        simp at h1
      · rw [if_neg hba] at h1 h2
        by_cases hbeq : b = a
        · rw [if_pos hbeq] at h1 h2
          rw [if_pos hbeq.symm]
          subst hbeq
          exact keyPfx_between as bs bs' h1 h2 h3
        · rw [if_neg hbeq] at h2
          simp at h2
    · rw [if_neg hab'] at h3
      simp at h3

/-- On a sorted tail all of whose keys are not below `p`, scanning while the
prefix matches is the same as filtering by the prefix: once one key fails
the prefix, every later key fails it too. -/
theorem takeWhile_eq_filter_of_ge : ∀ (p : Key) (l : Store),
    StoreSorted l → (∀ kv ∈ l, keyLt kv.1 p = false) →
    l.takeWhile (fun kv => keyPfx p kv.1) = l.filter (fun kv => keyPfx p kv.1)
  | _, [], _, _ => rfl
  | p, x :: l', hs, hb => by
    rw [StoreSorted, List.pairwise_cons] at hs
    obtain ⟨hhead, htail⟩ := hs
    have IH := takeWhile_eq_filter_of_ge p l' htail
      (fun kv hm => hb kv (List.mem_cons_of_mem x hm))
    by_cases hx : keyPfx p x.1 = true
    · rw [List.takeWhile_cons, List.filter_cons]
      simp [hx, IH]
    · have hnil : l'.filter (fun kv => keyPfx p kv.1) = [] := by
        rw [List.filter_eq_nil_iff]
        intro kv hm hk
        exact hx (keyPfx_between p x.1 kv.1 (hb x (List.mem_cons_self x l'))
          (hhead kv hm) hk)
      rw [List.takeWhile_cons, List.filter_cons]
      simp [hx, hnil]


/-- The range visited by `iter.Seek(p)` + `iter.ValidForPrefix(p)` on a
sorted store is exactly the entries whose key extends `p`. -/
theorem seek_range_eq_filter : ∀ (p : Key) (st : Store), StoreSorted st →
    (st.dropWhile (fun kv => keyLt kv.1 p)).takeWhile (fun kv => keyPfx p kv.1)
      = st.filter (fun kv => keyPfx p kv.1)
  | _, [], _ => rfl
  | p, x :: rest, hs => by
    rw [StoreSorted, List.pairwise_cons] at hs
    obtain ⟨hhead, htail⟩ := hs
    by_cases hx : keyLt x.1 p = true
    · have hnp : ¬ keyPfx p x.1 = true := fun hp => by
        rw [keyPfx_lt p x.1 hp] at hx
        exact Bool.false_ne_true hx
      have IH := seek_range_eq_filter p rest htail
      rw [List.dropWhile_cons, List.filter_cons]
      simp [hx, hnp, IH]
    · rw [List.dropWhile_cons]
      simp only [hx, if_false]
      have hstep : List.takeWhile (fun kv => keyPfx p kv.1) (x :: rest)
          = List.filter (fun kv => keyPfx p kv.1) (x :: rest) := by
        apply takeWhile_eq_filter_of_ge
        · exact List.pairwise_cons.mpr ⟨hhead, htail⟩
        · intro kv hm
          rcases List.mem_cons.mp hm with h | h
          · rw [h]
            exact Bool.not_eq_true _ ▸ hx
          · cases hkv : keyLt kv.1 p with
            | false => rfl
            | true => exact absurd (keyLt_trans x.1 kv.1 p (hhead kv h) hkv) hx
      simpa using hstep

/-- Collecting object values over a filtered range is a filter by the
conjunction followed by a projection. -/
theorem filterMap_obj_filter (q : Key × Entry → Bool) : ∀ (l : Store),
    (l.filter q).filterMap
        (fun kv => if kv.2.meta = ObjectMeta then some (kv.1, kv.2.value) else none)
      = (l.filter (fun kv => (kv.2.meta == ObjectMeta) && q kv)).map
          (fun kv => (kv.1, kv.2.value))
  | [] => rfl
  | x :: l' => by
    by_cases hq : q x = true
    · by_cases hm : x.2.meta = ObjectMeta
      · simp [List.filter_cons, hq, hm, List.filterMap_cons, filterMap_obj_filter q l']
      · simp [List.filter_cons, hq, hm, List.filterMap_cons, filterMap_obj_filter q l']
    · simp [List.filter_cons, hq, Bool.eq_false_iff.mpr hq, filterMap_obj_filter q l']

/-- On a sorted store, `Seek` returns exactly the object-tagged entries whose
key extends the prefix. -/
theorem Seek_eq_filter (st : Store) (p : Key) (hs : StoreSorted st) :
    Seek st p = (st.filter (fun kv => (kv.2.meta == ObjectMeta) && keyPfx p kv.1)).map
      (fun kv => (kv.1, kv.2.value)) := by
  rw [Seek, seek_range_eq_filter p st hs]
  exact filterMap_obj_filter (fun kv => keyPfx p kv.1) st

theorem lookup_insert_self : ∀ (st : Store) (k : Key) (e : Entry),
    lookupStore (insertStore st k e) k = some e
  | [], k, e => by simp [insertStore, lookupStore]
  | (k', e') :: rest, k, e => by
    simp only [insertStore]
    by_cases h1 : keyLt k k' = true
    · rw [if_pos h1]
      simp [lookupStore]
    · rw [if_neg h1]
      by_cases h2 : k = k'
      · rw [if_pos h2]
        simp [lookupStore]
      · rw [if_neg h2]
        rw [lookupStore, if_neg h2]
        exact lookup_insert_self rest k e

theorem lookup_insert_other : ∀ (st : Store) (k k'' : Key) (e : Entry), k'' ≠ k →
    lookupStore (insertStore st k e) k'' = lookupStore st k''
  | [], k, k'', e, hne => by simp [insertStore, lookupStore, hne]
  | (k', e') :: rest, k, k'', e, hne => by
    simp only [insertStore]
    by_cases h1 : keyLt k k' = true
    · rw [if_pos h1]
      simp [lookupStore, hne]
    · rw [if_neg h1]
      by_cases h2 : k = k'
      · rw [if_pos h2]
        subst h2
        simp [lookupStore, hne]
      · rw [if_neg h2]
        by_cases h3 : k'' = k'
        · simp [lookupStore, h3]
        · simp [lookupStore, h3, lookup_insert_other rest k k'' e hne]

theorem mem_insert_self : ∀ (st : Store) (k : Key) (e : Entry),
    (k, e) ∈ insertStore st k e
  | [], k, e => by simp [insertStore]
  | (k', e') :: rest, k, e => by
    simp only [insertStore]
    by_cases h1 : keyLt k k' = true
    · rw [if_pos h1]
      exact List.mem_cons_self _ _
    · rw [if_neg h1]
      by_cases h2 : k = k'
      · rw [if_pos h2]
        exact List.mem_cons_self _ _
      · rw [if_neg h2]
        exact List.mem_cons_of_mem _ (mem_insert_self rest k e)

/-- Membership characterization of the proximity scan: an event is published
exactly for the object-tagged candidates with a coordinate whose distance to
the trigger point is within the combined radius. -/
theorem mem_proximityScan (dist : Point → Point → Rat) (val : Object) (p1 : Point) :
    ∀ (l : Store) (ev : Event),
    ev ∈ proximityScan dist val p1 l ↔
      ∃ kv, kv ∈ l ∧ kv.2.meta = ObjectMeta ∧
        ∃ p2, kv.2.value.point = some p2 ∧
          dist p1 p2 ≤ ((val.radius + kv.2.value.radius : Int) : Rat) ∧
          ev = mkEvent val kv.2.value (dist p1 p2)
  | [], ev => by simp [proximityScan]
  | (k, e) :: rest, ev => by
    have IH := mem_proximityScan dist val p1 rest ev
    by_cases hm : e.meta = ObjectMeta
    · cases hp : e.value.point with
      | none =>
        rw [show proximityScan dist val p1 ((k, e) :: rest) = proximityScan dist val p1 rest by
          simp [proximityScan, hm, hp]]
        rw [IH]
        constructor
        · rintro ⟨kv, hmem, hrest⟩
          exact ⟨kv, List.mem_cons_of_mem _ hmem, hrest⟩
        · rintro ⟨kv, hmem, hkvm, p2, hp2, hrest⟩
          rcases List.mem_cons.mp hmem with h | h
          · subst h
            have hp2' : e.value.point = some p2 := hp2
            rw [hp] at hp2'
            cases hp2'
          · exact ⟨kv, h, hkvm, p2, hp2, hrest⟩
      | some p2 =>
        by_cases hd : dist p1 p2 ≤ ((val.radius + e.value.radius : Int) : Rat)
        · rw [show proximityScan dist val p1 ((k, e) :: rest)
              = mkEvent val e.value (dist p1 p2) :: proximityScan dist val p1 rest by
            have hd2 := hd
            push_cast at hd2
            simp [proximityScan, hm, hp, hd2]]
          rw [List.mem_cons, IH]
          constructor
          · rintro (h | ⟨kv, hmem, hrest⟩)
            · exact ⟨(k, e), List.mem_cons_self _ _, hm, p2, hp, hd, h⟩
            · exact ⟨kv, List.mem_cons_of_mem _ hmem, hrest⟩
          · rintro ⟨kv, hmem, hkvm, p2', hp2', hd', hev⟩
            rcases List.mem_cons.mp hmem with h | h
            · subst h
              have hq : e.value.point = some p2' := hp2'
              rw [hp] at hq
              injection hq with hq'
              subst hq'
              exact Or.inl hev
            · exact Or.inr ⟨kv, h, hkvm, p2', hp2', hd', hev⟩
        · rw [show proximityScan dist val p1 ((k, e) :: rest) = proximityScan dist val p1 rest by
            have hd2 := hd
            push_cast at hd2
            simp [proximityScan, hm, hp, hd2]]
          rw [IH]
          constructor
          · rintro ⟨kv, hmem, hrest⟩
            exact ⟨kv, List.mem_cons_of_mem _ hmem, hrest⟩
          · rintro ⟨kv, hmem, hkvm, p2', hp2', hd', hev⟩
            rcases List.mem_cons.mp hmem with h | h
            · subst h
              have hq : e.value.point = some p2' := hp2'
              rw [hp] at hq
              injection hq with hq'
              subst hq'
              exact absurd hd' hd
            · exact ⟨kv, h, hkvm, p2', hp2', hd', hev⟩
    · rw [show proximityScan dist val p1 ((k, e) :: rest) = proximityScan dist val p1 rest by
        simp [proximityScan, hm]]
      rw [IH]
      constructor
      · rintro ⟨kv, hmem, hrest⟩
        exact ⟨kv, List.mem_cons_of_mem _ hmem, hrest⟩
      · rintro ⟨kv, hmem, hkvm, hrest⟩
        rcases List.mem_cons.mp hmem with h | h
        · subst h
          exact absurd hkvm hm
        · exact ⟨kv, h, hkvm, hrest⟩

theorem setKey_of_fail (dist : Point → Point → Rat) (sef cf : Key → Bool) (now : Int)
    (st : Store) (k : Key) (v : Object) (h : sef k = true) :
    setKey dist sef cf now st k v = some ⟨st, [], []⟩ := by
  simp [setKey, h]

theorem setKey_of_ok (dist : Point → Point → Rat) (sef cf : Key → Bool) (now : Int)
    (st : Store) (k : Key) (v : Object) (p1 : Point)
    (hp : v.point = some p1) (hs : sef k = false) :
    setKey dist sef cf now st k v =
      some ⟨(if cf k then st else insertStore st k (objEntry (stampObject now k v))),
            [stampObject now k v],
            proximityScan dist (stampObject now k v) p1
              (insertStore st k (objEntry (stampObject now k v)))⟩ := by
  have hvp : (stampObject now k v).point = some p1 := hp
  by_cases hc : cf k = true <;> simp [setKey, hs, hvp, hc]

theorem setKey_of_nil_point (dist : Point → Point → Rat) (sef cf : Key → Bool) (now : Int)
    (st : Store) (k : Key) (v : Object) (hp : v.point = none) (hs : sef k = false) :
    setKey dist sef cf now st k v = none := by
  have hvp : (stampObject now k v).point = none := hp
  simp [setKey, hs, hvp]

/-- A completed batch does not touch the binding of a key outside the batch. -/
theorem setBatch_preserves (dist : Point → Point → Rat) (sef cf : Key → Bool) (now : Int) :
    ∀ (batch : List (Key × Object)) (st : Store) (k : Key),
    k ∉ batch.map Prod.fst →
    ∀ res, SetBatch dist sef cf now st batch = some res →
    lookupStore res.1 k = lookupStore st k
  | [], st, k, _, res, heq => by
    simp only [SetBatch, Option.some.injEq] at heq
    rw [← heq]
  | (k', v') :: rest, st, k, hk, res, heq => by
    simp only [List.map_cons, List.mem_cons, not_or] at hk
    obtain ⟨hkk', hkrest⟩ := hk
    cases hsk : setKey dist sef cf now st k' v' with
    | none =>
      simp only [SetBatch, hsk] at heq
      cases heq
    | some r =>
      cases hsb : SetBatch dist sef cf now r.store rest with
      | none =>
        simp only [SetBatch, hsk, hsb] at heq
        cases heq
      | some res' =>
        obtain ⟨st', pubs, evs⟩ := res'
        simp only [SetBatch, hsk, hsb, Option.some.injEq] at heq
        rw [← heq]
        have h1 : lookupStore st' k = lookupStore r.store k :=
          setBatch_preserves dist sef cf now rest r.store k hkrest (st', pubs, evs) hsb
        have h2 : lookupStore r.store k = lookupStore st k := by
          by_cases hs : sef k' = true
          · rw [setKey_of_fail dist sef cf now st k' v' hs] at hsk
            injection hsk with h
            rw [← h]
          · cases hvp : v'.point with
            | none =>
              rw [setKey_of_nil_point dist sef cf now st k' v' hvp
                (Bool.eq_false_iff.mpr hs)] at hsk
              cases hsk
            | some p1 =>
              rw [setKey_of_ok dist sef cf now st k' v' p1 hvp
                (Bool.eq_false_iff.mpr hs)] at hsk
              injection hsk with h
              rw [← h]
              by_cases hc : cf k' = true
              · simp [hc]
              · simp only [hc, if_false, Bool.false_eq_true]
                exact lookup_insert_other st k' k (objEntry (stampObject now k' v')) hkk'
        rw [h1, h2]

/-- A batch whose objects all carry a point completes, and each key's final
binding is its stamped entry when its write and commit succeed, and its
pre-call binding when its write or commit fails. -/
theorem setBatch_spec (dist : Point → Point → Rat) (sef cf : Key → Bool) (now : Int) :
    ∀ (batch : List (Key × Object)) (st : Store),
    (∀ kv ∈ batch, kv.2.point ≠ none) → (batch.map Prod.fst).Nodup →
    ∃ res, SetBatch dist sef cf now st batch = some res ∧
      ∀ kv ∈ batch,
        ((sef kv.1 = false ∧ cf kv.1 = false) →
          lookupStore res.1 kv.1 = some (objEntry (stampObject now kv.1 kv.2))) ∧
        ((sef kv.1 = true ∨ cf kv.1 = true) →
          lookupStore res.1 kv.1 = lookupStore st kv.1)
  | [], st, _, _ => ⟨(st, [], []), rfl, by simp⟩
  | (k, v) :: rest, st, hpts, hnd => by
    simp only [List.map_cons, List.nodup_cons] at hnd
    obtain ⟨hknot, hndrest⟩ := hnd
    have hvp : v.point ≠ none := hpts (k, v) (List.mem_cons_self _ _)
    have hptsrest : ∀ kv ∈ rest, kv.2.point ≠ none :=
      fun kv hm => hpts kv (List.mem_cons_of_mem _ hm)
    cases hvpt : v.point with
    | none => exact absurd hvpt hvp
    | some p1 =>
      by_cases hs : sef k = true
      · obtain ⟨res', heq', hspec'⟩ := setBatch_spec dist sef cf now rest st hptsrest hndrest
        obtain ⟨st', pubs, evs⟩ := res'
        refine ⟨(st', pubs, evs), ?_, ?_⟩
        · simp only [SetBatch, setKey_of_fail dist sef cf now st k v hs, heq']
          simp
        · intro kv hm
          rcases List.mem_cons.mp hm with h | h
          · subst h
            constructor
            · rintro ⟨h1, _⟩
              simp [hs] at h1
            · intro _
              exact setBatch_preserves dist sef cf now rest st k hknot (st', pubs, evs) heq'
          · exact hspec' kv h
      · have hs' : sef k = false := Bool.eq_false_iff.mpr hs
        have hkey := setKey_of_ok dist sef cf now st k v p1 hvpt hs'
        by_cases hc : cf k = true
        · rw [if_pos hc] at hkey
          obtain ⟨res', heq', hspec'⟩ := setBatch_spec dist sef cf now rest st hptsrest hndrest
          obtain ⟨st', pubs, evs⟩ := res'
          refine ⟨(st', stampObject now k v :: pubs,
            proximityScan dist (stampObject now k v) p1
              (insertStore st k (objEntry (stampObject now k v))) ++ evs), ?_, ?_⟩
          · simp only [SetBatch, hkey, heq']
            simp
          · intro kv hm
            rcases List.mem_cons.mp hm with h | h
            · subst h
              constructor
              · rintro ⟨_, h2⟩
                simp [hc] at h2
              · intro _
                exact setBatch_preserves dist sef cf now rest st k hknot (st', pubs, evs) heq'
            · exact hspec' kv h
        · rw [if_neg hc] at hkey
          obtain ⟨res', heq', hspec'⟩ := setBatch_spec dist sef cf now rest
            (insertStore st k (objEntry (stampObject now k v))) hptsrest hndrest
          obtain ⟨st', pubs, evs⟩ := res'
          refine ⟨(st', stampObject now k v :: pubs,
            proximityScan dist (stampObject now k v) p1
              (insertStore st k (objEntry (stampObject now k v))) ++ evs), ?_, ?_⟩
          · simp only [SetBatch, hkey, heq']
            simp
          · intro kv hm
            rcases List.mem_cons.mp hm with h | h
            · subst h
              constructor
              · intro _
                rw [setBatch_preserves dist sef cf now rest
                  (insertStore st k (objEntry (stampObject now k v))) k hknot
                  (st', pubs, evs) heq']
                exact lookup_insert_self st k (objEntry (stampObject now k v))
              · rintro (h1 | h1)
                · simp [hs'] at h1
                · simp [hc] at h1
            · have hne : kv.1 ≠ k := fun he => hknot (he ▸ List.mem_map_of_mem Prod.fst h)
              obtain ⟨ha, hb⟩ := hspec' kv h
              refine ⟨ha, fun hor => ?_⟩
              rw [hb hor]
              exact lookup_insert_other st k kv.1 (objEntry (stampObject now k v)) hne

/-- A distance function for concrete instantiations: everything at distance
zero (great-circle distance is reflexive-zero, which is all the concrete
checks need). -/
def distZero : Point → Point → Rat := fun _ _ => 0

/-- No engine-side failures injected. -/
def noFail : Key → Bool := fun _ => false

/-- A concrete point used by instantiations. -/
def pW : Point := { lat := 1, lon := 2 }

/-- C2 fixture: a stored object under key `d`. -/
def objD : Object :=
  { key := ['d'], point := some pW, radius := 0, updatedUnix := 5, expiresUnix := 0,
    payload := "d" }

/-- C2 fixture: a store holding only `objD`. -/
def stC2 : Store := [(['d'], objEntry objD)]

/-- C1: the claim says `GetClientEventStream(id)` returns the event delivery
channel when an event-stream client with that ID is registered. In the
source the membership test consults the object-client map, and the
`StreamEvents` handler registers its client with `AddObjectStreamClient`;
so a client registered for events via `AddEventStreamClient` has an event
channel in the event map, yet the accessor reports not-found — and a client
registered by the `StreamEvents` handler gets `none` as well, so `Set`'s
published events can never reach it. -/
theorem geodb_c1 :
    lookupClient (AddEventStreamClient "u" newHub "c").1.eventClients "c" = some 0 ∧
    GetClientEventStream (AddEventStreamClient "u" newHub "c").1 "c" = none ∧
    GetClientEventStream (streamEventsRegister "u" newHub "c").1 "c" = none :=
  ⟨rfl, rfl, rfl⟩

/-- C2: the claim says `Delete` deletes every supplied key and commits, so a
following `Get` omits the keys. The source's `Delete` stages the deletions
but never calls `txn.Commit`; the deferred `Discard` drops them, the store
is unchanged, and `Get` still returns the "deleted" object. -/
theorem geodb_c2 :
    DeleteTxn stC2 [['d']] = { view := [], committed := false } ∧
    Delete stC2 [['d']] = stC2 ∧
    Get (Delete stC2 [['d']]) [['d']] = Except.ok [(['d'], objD)] :=
  ⟨rfl, rfl, rfl⟩

/-- C3: the claim says that on context cancellation the `Stream` /
`StreamEvents` loop deregisters the client and terminates. The source
deregisters, but the `break` inside `select` exits only the `select`
statement, so the iteration outcome on cancellation is to continue the
loop, and no number of cancellation signals makes either loop return. -/
theorem geodb_c3 (ms : String → Key → Except String Bool) (regex : String) (n : Nat) :
    streamStep ms regex StreamMsg.cancelled = LoopStep.continueLoop true [] ∧
    streamEventsStep ms regex StreamMsg.cancelled = LoopStep.continueLoop true [] ∧
    runStreamLoop ms regex (List.replicate n StreamMsg.cancelled) = none ∧
    runStreamEventsLoop ms regex (List.replicate n StreamMsg.cancelled) = none := by
  refine ⟨rfl, rfl, ?_, ?_⟩
  · induction n with
    | zero => rfl
    | succ m ih => simpa [List.replicate_succ, runStreamLoop, streamStep] using ih
  · induction n with
    | zero => rfl
    | succ m ih => simpa [List.replicate_succ, runStreamEventsLoop, streamEventsStep] using ih

/-- C4 fixture: a stored object under key `s`. -/
def objS : Object :=
  { key := ['s'], point := none, radius := 0, updatedUnix := 1, expiresUnix := 0,
    payload := "s" }

/-- C4 fixture: a store holding only `objS`. -/
def stC4 : Store := [(['s'], objEntry objS)]

/-- C4, amended: on a sorted store, `Seek(p)` returns exactly the
object-tagged entries whose key has prefix `p`; since the empty prefix
matches every key, `Seek` with the empty prefix is a full scan whose keys
are exactly `Keys()` — not an empty result. -/
theorem geodb_c4 (st : Store) (p : Key) (hs : StoreSorted st) :
    Seek st p = (st.filter (fun kv => (kv.2.meta == ObjectMeta) && keyPfx p kv.1)).map
        (fun kv => (kv.1, kv.2.value)) ∧
    (Seek st []).map Prod.fst = Keys st := by
  refine ⟨Seek_eq_filter st p hs, ?_⟩
  have hf : st.filter (fun kv => (kv.2.meta == ObjectMeta) && keyPfx [] kv.1)
      = st.filter (fun kv => kv.2.meta == ObjectMeta) :=
    List.filter_congr (fun kv _ => by rw [keyPfx_nil_left, Bool.and_true])
  rw [Seek_eq_filter st [] hs, hf, Keys, List.map_map]
  rfl

/-- C4 counterexample: with one stored object, `Seek` with the empty prefix
returns that object — a full scan — rather than nothing. -/
theorem geodb_c4_counterexample :
    Seek stC4 [] = [(['s'], objS)] ∧ Seek stC4 [] ≠ [] :=
  ⟨rfl, by decide⟩

/-- C4 fixtures: two objects under keys `a` and `b`, and the sorted store
holding both. -/
def objA4 : Object :=
  { key := ['a'], point := none, radius := 0, updatedUnix := 1, expiresUnix := 0,
    payload := "a4" }

def objB4 : Object :=
  { key := ['b'], point := none, radius := 0, updatedUnix := 2, expiresUnix := 0,
    payload := "b4" }

def stC4W : Store := [(['a'], objEntry objA4), (['b'], objEntry objB4)]

theorem geodb_c4_witness :
    StoreSorted stC4W ∧
    Seek stC4W ['a'] = (stC4W.filter
        (fun kv => (kv.2.meta == ObjectMeta) && keyPfx ['a'] kv.1)).map
      (fun kv => (kv.1, kv.2.value)) ∧
    (Seek stC4W []).map Prod.fst = Keys stC4W := by
  have hsort : StoreSorted stC4W := by
    rw [StoreSorted]
    decide
  exact ⟨hsort, (geodb_c4 stC4W ['a'] hsort).1, (geodb_c4 stC4W ['a'] hsort).2⟩

/-- C5: during a `Set` unit of work for object A (once the engine accepts
the staged write), an event with the stamped A as trigger and candidate B as
matched object is published exactly when B is an object-tagged entry visible
in the transaction (the staged write included), B has a coordinate, and the
great-circle distance is at most radius(A) + radius(B); candidates without a
coordinate are skipped without an event. -/
theorem geodb_c5 (dist : Point → Point → Rat) (sef cf : Key → Bool) (now : Int)
    (st : Store) (k : Key) (v : Object) (p1 : Point)
    (hp : v.point = some p1) (hs : sef k = false) :
    (setKey dist sef cf now st k v).isSome = true ∧
    ∀ ev, ev ∈ eventsOf (setKey dist sef cf now st k v) ↔
      ∃ kv, kv ∈ insertStore st k (objEntry (stampObject now k v)) ∧
        kv.2.meta = ObjectMeta ∧
        ∃ p2, kv.2.value.point = some p2 ∧
          dist p1 p2 ≤ (((stampObject now k v).radius + kv.2.value.radius : Int) : Rat) ∧
          ev = mkEvent (stampObject now k v) kv.2.value (dist p1 p2) := by
  have hkey := setKey_of_ok dist sef cf now st k v p1 hp hs
  constructor
  · rw [hkey]
    rfl
  · intro ev
    rw [show eventsOf (setKey dist sef cf now st k v)
        = proximityScan dist (stampObject now k v) p1
            (insertStore st k (objEntry (stampObject now k v))) by
      rw [hkey]
      by_cases hc : cf k = true <;> simp [hc, eventsOf]]
    exact mem_proximityScan dist (stampObject now k v) p1 _ ev

/-- C5 fixture: an object with a coordinate and radius 1. -/
def objW5 : Object :=
  { key := [], point := some pW, radius := 1, updatedUnix := 3, expiresUnix := 0,
    payload := "w5" }

theorem geodb_c5_witness :
    mkEvent (stampObject 9 ['w'] objW5) (stampObject 9 ['w'] objW5) (distZero pW pW)
      ∈ eventsOf (setKey distZero noFail noFail 9 [] ['w'] objW5) :=
  ((geodb_c5 distZero noFail noFail 9 [] ['w'] objW5 pW rfl rfl).2 _).mpr
    ⟨(['w'], objEntry (stampObject 9 ['w'] objW5)),
      mem_insert_self [] ['w'] _, rfl, pW, rfl, by decide, rfl⟩

/-- C6: writing an object A that has a coordinate and a non-negative radius
— into any store, including the empty one — publishes a self-event pairing
the stamped A with itself at distance 0, because the proximity scan sees the
staged write and the distance of a point to itself is 0. -/
theorem geodb_c6 (dist : Point → Point → Rat) (sef cf : Key → Bool) (now : Int)
    (st : Store) (k : Key) (v : Object) (p : Point)
    (hp : v.point = some p) (hd : dist p p = 0) (hr : 0 ≤ v.radius) (hs : sef k = false) :
    (setKey dist sef cf now st k v).isSome = true ∧
    mkEvent (stampObject now k v) (stampObject now k v) 0
      ∈ eventsOf (setKey dist sef cf now st k v) := by
  have hkey := setKey_of_ok dist sef cf now st k v p hp hs
  constructor
  · rw [hkey]
    rfl
  · rw [show eventsOf (setKey dist sef cf now st k v)
        = proximityScan dist (stampObject now k v) p
            (insertStore st k (objEntry (stampObject now k v))) by
      rw [hkey]
      by_cases hc : cf k = true <;> simp [hc, eventsOf]]
    apply (mem_proximityScan dist (stampObject now k v) p _ _).mpr
    refine ⟨(k, objEntry (stampObject now k v)), mem_insert_self st k _, rfl, p, hp, ?_, ?_⟩
    · rw [hd]
      have hrr : (0 : Int) ≤ v.radius + v.radius := by omega
      exact_mod_cast hrr
    · rw [hd]
      rfl

/-- C6 fixture: an object with a coordinate and radius 0. -/
def objW6 : Object :=
  { key := [], point := some pW, radius := 0, updatedUnix := 0, expiresUnix := 0,
    payload := "w6" }

theorem geodb_c6_witness :
    mkEvent (stampObject 4 ['z'] objW6) (stampObject 4 ['z'] objW6) 0
      ∈ eventsOf (setKey distZero noFail noFail 4 [] ['z'] objW6) :=
  (geodb_c6 distZero noFail noFail 4 [] ['z'] objW6 pW rfl rfl (by decide) rfl).2

/-- On a matcher that fails on every subject (a pattern that does not
compile), the scan errors at the first object-tagged entry and succeeds with
an empty result when no entry is object-tagged. -/
theorem getRegex_invalid (ms : String → Key → Except String Bool) (pat : String)
    (emsg : String) (h : ∀ k, ms pat k = Except.error emsg) :
    ∀ st : Store, GetRegex ms pat st =
      if st.any (fun kv => kv.2.meta == ObjectMeta) then Except.error emsg
      else Except.ok []
  | [] => rfl
  | (k, e) :: rest => by
    by_cases hm : e.meta = ObjectMeta
    · simp [GetRegex, hm, h k, List.any_cons]
    · have hb : (e.meta == ObjectMeta) = false := by simp [hm]
      have hskip : GetRegex ms pat ((k, e) :: rest) = GetRegex ms pat rest := by
        simp [GetRegex, hm]
      rw [hskip, getRegex_invalid ms pat emsg h rest]
      simp only [List.any_cons, hb, Bool.false_or]

/-- On a matcher that totally computes `f` (a valid pattern), the scan
returns exactly the object-tagged entries whose key satisfies `f`. -/
theorem getRegex_valid (ms : String → Key → Except String Bool) (pat : String)
    (f : Key → Bool) (h : ∀ k, ms pat k = Except.ok (f k)) :
    ∀ st : Store, GetRegex ms pat st =
      Except.ok ((st.filter (fun kv => (kv.2.meta == ObjectMeta) && f kv.1)).map
        (fun kv => (kv.1, kv.2.value)))
  | [] => rfl
  | (k, e) :: rest => by
    by_cases hm : e.meta = ObjectMeta
    · by_cases hf : f k = true
      · simp [GetRegex, hm, h k, hf, getRegex_valid ms pat f h rest, List.filter_cons]
      · simp [GetRegex, hm, h k, hf, getRegex_valid ms pat f h rest, List.filter_cons]
    · simp [GetRegex, hm, getRegex_valid ms pat f h rest, List.filter_cons]

/-- C7, amended: `GetRegex` with a pattern that does not compile fails with
the invalid-pattern error exactly when at least one object-tagged entry is
stored — the pattern is compiled lazily per scanned key, so on a store with
no object-tagged entries the call returns an empty success instead; with a
valid pattern it returns exactly the object-tagged keys matching the
pattern. -/
theorem geodb_c7 (msInv msVal : String → Key → Except String Bool) (pat : String)
    (st : Store) (emsg : String) (f : Key → Bool)
    (hinv : ∀ k, msInv pat k = Except.error emsg)
    (hval : ∀ k, msVal pat k = Except.ok (f k)) :
    GetRegex msInv pat st =
      (if st.any (fun kv => kv.2.meta == ObjectMeta) then Except.error emsg
       else Except.ok []) ∧
    GetRegex msVal pat st =
      Except.ok ((st.filter (fun kv => (kv.2.meta == ObjectMeta) && f kv.1)).map
        (fun kv => (kv.1, kv.2.value))) :=
  ⟨getRegex_invalid msInv pat emsg hinv st, getRegex_valid msVal pat f hval st⟩

/-- C7 fixture: the matcher of a pattern that does not compile — it errors
on every subject. -/
def msInvalid : String → Key → Except String Bool :=
  fun _ _ => Except.error "invalid pattern"

/-- C7 counterexample: on a store with no object-tagged entries (here the
empty store — a perfectly good stored state), `GetRegex` with a
non-compiling pattern returns an empty success instead of failing. -/
theorem geodb_c7_counterexample :
    GetRegex msInvalid "(" [] = Except.ok [] ∧
    GetRegex msInvalid "(" [] ≠ Except.error "invalid pattern" :=
  ⟨rfl, by simp [GetRegex]⟩

/-- C7 fixture: a matcher accepting every key. -/
def msAll : String → Key → Except String Bool := fun _ _ => Except.ok true

/-- C7 fixture: a stored object under key `m`. -/
def objM : Object :=
  { key := ['m'], point := none, radius := 0, updatedUnix := 8, expiresUnix := 0,
    payload := "m" }

def stC7 : Store := [(['m'], objEntry objM)]

theorem geodb_c7_witness :
    GetRegex msInvalid "p" stC7 = Except.error "invalid pattern" ∧
    GetRegex msAll "p" stC7 = Except.ok [(['m'], objM)] := by
  have h := geodb_c7 msInvalid msAll "p" stC7 "invalid pattern" (fun _ => true)
    (fun _ => rfl) (fun _ => rfl)
  refine ⟨?_, ?_⟩
  · rw [h.1]
    rfl
  · rw [h.2]
    rfl

/-- C8, amended: for every batch whose objects all carry a point (a
point-less object makes the call fault instead, see the nil-point
dereference), `Set` completes with the empty response — a message with no
fields, hence no per-key status and no surfaced error; a per-key engine
write or commit failure leaves exactly that key's binding untouched while
sibling keys' successful writes all land. -/
theorem geodb_c8 (dist : Point → Point → Rat) (sef cf : Key → Bool) (now : Int)
    (st : Store) (batch : List (Key × Object))
    (hpts : ∀ kv ∈ batch, kv.2.point ≠ none)
    (hnd : (batch.map Prod.fst).Nodup) :
    (Set dist sef cf now st batch).isSome = true ∧
    respOf (Set dist sef cf now st batch) = some SetResponse.mk ∧
    ∀ kv ∈ batch,
      ((sef kv.1 = false ∧ cf kv.1 = false) →
        lookupStore (setStoreOf (Set dist sef cf now st batch)) kv.1
          = some (objEntry (stampObject now kv.1 kv.2))) ∧
      ((sef kv.1 = true ∨ cf kv.1 = true) →
        lookupStore (setStoreOf (Set dist sef cf now st batch)) kv.1
          = lookupStore st kv.1) := by
  obtain ⟨res, heq, hspec⟩ := setBatch_spec dist sef cf now batch st hpts hnd
  obtain ⟨st', pubs, evs⟩ := res
  have hset : Set dist sef cf now st batch = some (st', pubs, evs, SetResponse.mk) := by
    rw [Set, heq]
  have hstore : setStoreOf (Set dist sef cf now st batch) = st' := by
    rw [hset]
    rfl
  refine ⟨by rw [hset]; rfl, by rw [hset]; rfl, ?_⟩
  intro kv hm
  rw [hstore]
  exact hspec kv hm

/-- C8 fixture: an object without a point. -/
def objNoPt8 : Object :=
  { key := [], point := none, radius := 0, updatedUnix := 0, expiresUnix := 0,
    payload := "n8" }

/-- C8 counterexample: the claim quantifies over every batch, but a batch
holding an object with no point makes `Set` dereference the absent point —
the call faults and no response at all is produced, empty or otherwise. -/
theorem geodb_c8_counterexample :
    Set distZero noFail noFail 7 [] [(['q'], objNoPt8)] = none ∧
    respOf (Set distZero noFail noFail 7 [] [(['q'], objNoPt8)]) ≠ some SetResponse.mk :=
  ⟨rfl, fun h => Option.noConfusion h⟩

/-- C8 fixtures: two pointed objects, and a failure injection that rejects
the staged write of key `a` only. -/
def objW8a : Object :=
  { key := [], point := some pW, radius := 0, updatedUnix := 1, expiresUnix := 0,
    payload := "w8a" }

def objW8b : Object :=
  { key := [], point := some pW, radius := 0, updatedUnix := 1, expiresUnix := 0,
    payload := "w8b" }

def sefW8 : Key → Bool := fun k => decide (k = ['a'])

theorem geodb_c8_witness :
    lookupStore (setStoreOf (Set distZero sefW8 noFail 2 []
        [(['a'], objW8a), (['b'], objW8b)])) ['b']
      = some (objEntry (stampObject 2 ['b'] objW8b)) ∧
    lookupStore (setStoreOf (Set distZero sefW8 noFail 2 []
        [(['a'], objW8a), (['b'], objW8b)])) ['a']
      = lookupStore [] ['a'] := by
  have h := geodb_c8 distZero sefW8 noFail 2 [] [(['a'], objW8a), (['b'], objW8b)]
    (by intro kv hm; fin_cases hm <;> simp [objW8a, objW8b]) (by decide)
  exact ⟨(h.2.2 (['b'], objW8b) (by simp)).1 ⟨by decide, rfl⟩,
    (h.2.2 (['a'], objW8a) (by simp)).2 (Or.inl (by decide))⟩

/-- C9, amended: for every key `k` and object `v` that carries a point (a
point-less object makes `Set` fault instead), once the engine accepts the
write and the commit, `Set({k: v})` followed by `Get([k])` returns exactly
the stamped object: equal to `v` except that `key` is stamped to `k` and
`updatedUnix` is populated with the write time when `v`'s was 0. -/
theorem geodb_c9 (dist : Point → Point → Rat) (sef cf : Key → Bool) (now : Int)
    (st : Store) (k : Key) (v : Object) (p1 : Point)
    (hp : v.point = some p1) (hs : sef k = false) (hc : cf k = false) :
    (Set dist sef cf now st [(k, v)]).isSome = true ∧
    Get (setStoreOf (Set dist sef cf now st [(k, v)])) [k]
      = Except.ok [(k, stampObject now k v)] ∧
    (stampObject now k v).key = k ∧
    (stampObject now k v).point = v.point ∧
    (stampObject now k v).radius = v.radius ∧
    (stampObject now k v).expiresUnix = v.expiresUnix ∧
    (stampObject now k v).payload = v.payload ∧
    (stampObject now k v).updatedUnix
      = (if v.updatedUnix = 0 then now else v.updatedUnix) := by
  have hkey := setKey_of_ok dist sef cf now st k v p1 hp hs
  rw [if_neg (by rw [hc]; exact Bool.false_ne_true)] at hkey
  have hsb : SetBatch dist sef cf now st [(k, v)]
      = some (insertStore st k (objEntry (stampObject now k v)),
          [stampObject now k v],
          proximityScan dist (stampObject now k v) p1
            (insertStore st k (objEntry (stampObject now k v)))) := by
    simp [SetBatch, hkey]
  have hset : Set dist sef cf now st [(k, v)]
      = some (insertStore st k (objEntry (stampObject now k v)),
          [stampObject now k v],
          proximityScan dist (stampObject now k v) p1
            (insertStore st k (objEntry (stampObject now k v))),
          SetResponse.mk) := by
    rw [Set, hsb]
  have hstore : setStoreOf (Set dist sef cf now st [(k, v)])
      = insertStore st k (objEntry (stampObject now k v)) := by
    rw [hset]
    rfl
  refine ⟨by rw [hset]; rfl, ?_, rfl, rfl, rfl, rfl, rfl, rfl⟩
  rw [hstore]
  have hl := lookup_insert_self st k (objEntry (stampObject now k v))
  simp only [Get]
  rw [hl]
  simp [objEntry]

/-- C9 fixture: an object without a point. -/
def objNoPt9 : Object :=
  { key := [], point := none, radius := 0, updatedUnix := 0, expiresUnix := 0,
    payload := "n9" }

/-- C9 counterexample: the claim quantifies over every object `v`, but for a
`v` with no point the `Set` call faults on the nil-point dereference and
produces nothing, so the subsequent `Get` cannot return the written
object. -/
theorem geodb_c9_counterexample :
    Set distZero noFail noFail 5 [] [(['r'], objNoPt9)] = none :=
  rfl

/-- C9 fixture: a pointed object whose `updatedUnix` is unset. -/
def objW9 : Object :=
  { key := [], point := some pW, radius := 2, updatedUnix := 0, expiresUnix := 0,
    payload := "w9" }

theorem geodb_c9_witness :
    Get (setStoreOf (Set distZero noFail noFail 11 [] [(['g'], objW9)])) [['g']]
      = Except.ok [(['g'], stampObject 11 ['g'] objW9)] ∧
    (stampObject 11 ['g'] objW9).updatedUnix = 11 :=
  ⟨(geodb_c9 distZero noFail noFail 11 [] ['g'] objW9 pW rfl rfl rfl).2.1,
    (geodb_c9 distZero noFail noFail 11 [] ['g'] objW9 pW rfl rfl rfl).2.2.2.2.2.2.2⟩

/-- C10: `Set` is total only for batches whose objects carry a point: when a
unit of work whose staged write the engine accepted reaches the proximity
scan with a point-less object, it dereferences the absent point while
building the trigger coordinates and the call faults (modelled as `none`) —
it neither skips the key nor returns an error for it. -/
theorem geodb_c10 (dist : Point → Point → Rat) (sef cf : Key → Bool) (now : Int)
    (st : Store) (k : Key) (v : Object) (batch : List (Key × Object))
    (hp : v.point = none) (hs : sef k = false) :
    setKey dist sef cf now st k v = none ∧
    Set dist sef cf now st ((k, v) :: batch) = none := by
  have h := setKey_of_nil_point dist sef cf now st k v hp hs
  exact ⟨h, by simp [Set, SetBatch, h]⟩

/-- C10 fixture: an object without a point. -/
def objNoPt10 : Object :=
  { key := [], point := none, radius := 1, updatedUnix := 6, expiresUnix := 0,
    payload := "n10" }

theorem geodb_c10_witness :
    Set distZero noFail noFail 3 [] [(['x'], objNoPt10)] = none :=
  (geodb_c10 distZero noFail noFail 3 [] ['x'] objNoPt10 [] rfl rfl).2

end GeoDB
